import Mathlib

/-!
Verification of the Pacioli plugin SDK (packages/plugin-sdk).

The development shallowly embeds:
  - the Zod manifest schema `PluginManifestSchema` of src/types.ts as a total
    validator `safeParse : RawManifest → Except (List ZodIssue) PluginManifest`,
    mirroring Zod object parsing: every field is checked, all issues are
    collected left-to-right in shape-key order, unknown keys are stripped,
    `.default([])` fills `permissions` when absent;
  - `createPlugin` and `hasPermission` of src/plugin.ts;
  - the PermissionGate enforcement contract and the EventBus dispatch
    semantics, which the repository states only as interfaces and doc
    comments; these are modelled from the specification.
-/

/-- A raw array element, as far as `z.array(z.string())` distinguishes
elements: a string, or any non-string value (number, object, nested array…). -/
inductive RawItem where
  | str (s : String)
  | nonStr
deriving DecidableEq, Repr

/-- True exactly on string elements. -/
def RawItem.isStr : RawItem → Bool
  | .str _ => true
  | .nonStr => false

/-- A raw (untrusted, untyped) JSON-like value, as far as the manifest schema
distinguishes values: a string, an array, or anything else. -/
inductive RawVal where
  | str (s : String)
  | arr (xs : List RawItem)
  | other
deriving DecidableEq, Repr

/-- One segment of a Zod issue path: an object key or an array index. -/
inductive PathSeg where
  | key (s : String)
  | idx (n : Nat)
deriving DecidableEq, Repr

/-- A single validation issue, as reported by Zod safeParse: the path of the
offending field and a human-readable message. -/
structure ZodIssue where
  path : List PathSeg
  message : String
deriving DecidableEq, Repr

/-- The raw input record of `PluginManifestSchema.parse`: each declared key is
present (`some`) or absent (`none`); `extra` holds unknown keys, which Zod
object parsing ignores and strips. -/
structure RawManifest where
  id : Option RawVal := none
  name : Option RawVal := none
  version : Option RawVal := none
  author : Option RawVal := none
  description : Option RawVal := none
  homepage : Option RawVal := none
  compatibleVersions : Option RawVal := none
  permissions : Option RawVal := none
  icon : Option RawVal := none
  tags : Option RawVal := none
  extra : List (String × RawVal) := []
deriving DecidableEq, Repr

/-- The parsed manifest, as produced by `PluginManifestSchema` of
src/packages/plugin-sdk/src/types.ts. -/
structure PluginManifest where
  id : String
  name : String
  version : String
  author : String
  description : String
  homepage : Option String
  compatibleVersions : String
  permissions : List String
  icon : Option String
  tags : Option (List String)
deriving DecidableEq, Repr

/-- Character class `[a-z0-9-]` of the `id` regex in the schema: lowercase
letters, digits, and the hyphen (code point 45). -/
def isIdChar (c : Char) : Bool :=
  (97 ≤ c.toNat && c.toNat ≤ 122) || c.isDigit || c.toNat == 45

/-- The `id` regex of the schema: `[a-z0-9-]+` anchored at both ends. -/
def idRegexOk (s : String) : Bool :=
  !(decide (s.length = 0)) && s.toList.all isIdChar

/-- Consume one or more leading digits, greedily. -/
def expectDigits : List Char → Option (List Char)
  | [] => none
  | c :: rest => if c.isDigit then some (rest.dropWhile (fun d => d.isDigit)) else none

/-- Consume one expected leading dot (code point 46). -/
def expectDot : List Char → Option (List Char)
  | [] => none
  | c :: rest => if c.toNat == 46 then some rest else none

/-- The `version` regex of the schema, unanchored at the end: the string must
start with digits, dot, digits, dot, digits. -/
def versionStartOk (s : String) : Bool :=
  (((((expectDigits s.toList).bind expectDot).bind expectDigits).bind
    expectDot).bind expectDigits).isSome

/-- Scheme characters allowed after the first: ALPHA / DIGIT / plus (43) /
minus (45) / dot (46). -/
def isSchemeChar (c : Char) : Bool :=
  c.isAlpha || c.isDigit || c.toNat == 43 || c.toNat == 45 || c.toNat == 46

/-- Consume the tail of a URL scheme up to the colon (code point 58). -/
def schemeTail : List Char → Bool
  | [] => false
  | c :: rest => if c.toNat == 58 then true else if isSchemeChar c then schemeTail rest else false

/-- Modelled from the spec: the check for a well-formed absolute URL. The
source delegates to `z.string().url()`, i.e. to the platform URL constructor,
whose code is not part of this repository; modelled as an ASCII-alpha-led
scheme of scheme characters followed by a colon, which is what makes a URL
absolute. The same predicate is used for the code side and the spec side of
every claim that mentions URL well-formedness, so the claims do not depend on
its exact extension. -/
def isAbsoluteURL (s : String) : Bool :=
  match s.toList with
  | [] => false
  | c :: rest => c.isAlpha && schemeTail rest

/-- Issue for a required key that is absent. -/
def requiredIssue (f : String) : ZodIssue :=
  ⟨[.key f], "Required"⟩

/-- Issue for a key whose value is not a string. -/
def typeIssue (f : String) : ZodIssue :=
  ⟨[.key f], "Expected string"⟩

/-- Issue of the `.min(1)` check. -/
def minLenIssue (f : String) : ZodIssue :=
  ⟨[.key f], "String must contain at least 1 character(s)"⟩

/-- Issue of a `.regex(...)` check. -/
def invalidIssue (f : String) : ZodIssue :=
  ⟨[.key f], "Invalid"⟩

/-- Issue of the `.url()` check. -/
def urlIssue : ZodIssue :=
  ⟨[.key "homepage"], "Invalid url"⟩

/-- Issue for a key whose value is not an array. -/
def arrayTypeIssue (f : String) : ZodIssue :=
  ⟨[.key f], "Expected array"⟩

/-- Issue for an array element that is not a string, at its index. -/
def elemTypeIssue (f : String) (i : Nat) : ZodIssue :=
  ⟨[.key f, .idx i], "Expected string"⟩

/-- Field parser for `id: z.string().min(1).regex(...)`: both string checks
run and each failing check contributes its own issue, as in Zod. -/
def parseId (v : Option RawVal) : Except (List ZodIssue) String :=
  match v with
  | none => .error [requiredIssue "id"]
  | some (.str s) =>
    let issues :=
      (if s.length < 1 then [minLenIssue "id"] else []) ++
      (if idRegexOk s then [] else [invalidIssue "id"])
    if issues = [] then .ok s else .error issues
  | some _ => .error [typeIssue "id"]

/-- Field parser for `z.string().min(1)` (the name, author and description
fields). -/
def parseMinStr (f : String) (v : Option RawVal) : Except (List ZodIssue) String :=
  match v with
  | none => .error [requiredIssue f]
  | some (.str s) => if s.length < 1 then .error [minLenIssue f] else .ok s
  | some _ => .error [typeIssue f]

/-- Field parser for `version: z.string().regex(...)`. -/
def parseVersion (v : Option RawVal) : Except (List ZodIssue) String :=
  match v with
  | none => .error [requiredIssue "version"]
  | some (.str s) => if versionStartOk s then .ok s else .error [invalidIssue "version"]
  | some _ => .error [typeIssue "version"]

/-- Field parser for `homepage: z.string().url().optional()`. -/
def parseHomepage (v : Option RawVal) : Except (List ZodIssue) (Option String) :=
  match v with
  | none => .ok none
  | some (.str s) => if isAbsoluteURL s then .ok (some s) else .error [urlIssue]
  | some _ => .error [typeIssue "homepage"]

/-- Field parser for `compatibleVersions: z.string()`. -/
def parseCompat (v : Option RawVal) : Except (List ZodIssue) String :=
  match v with
  | none => .error [requiredIssue "compatibleVersions"]
  | some (.str s) => .ok s
  | some _ => .error [typeIssue "compatibleVersions"]

/-- Field parser for `icon: z.string().optional()`. -/
def parseIcon (v : Option RawVal) : Except (List ZodIssue) (Option String) :=
  match v with
  | none => .ok none
  | some (.str s) => .ok (some s)
  | some _ => .error [typeIssue "icon"]

/-- Element-wise parser for `z.array(z.string())`: every element is checked
and all element issues are collected, each under its index path. -/
def parseElems (f : String) : Nat → List RawItem → Except (List ZodIssue) (List String)
  | _, [] => .ok []
  | i, .str s :: rest =>
    match parseElems f (i + 1) rest with
    | .ok ss => .ok (s :: ss)
    | .error es => .error es
  | i, .nonStr :: rest =>
    match parseElems f (i + 1) rest with
    | .ok _ => .error [elemTypeIssue f i]
    | .error es => .error (elemTypeIssue f i :: es)

/-- Field parser for `permissions: z.array(z.string()).default([])`: an absent
key is filled with the empty list. -/
def parsePermissions (v : Option RawVal) : Except (List ZodIssue) (List String) :=
  match v with
  | none => .ok []
  | some (.arr xs) => parseElems "permissions" 0 xs
  | some _ => .error [arrayTypeIssue "permissions"]

/-- Field parser for `tags: z.array(z.string()).optional()`. -/
def parseTags (v : Option RawVal) : Except (List ZodIssue) (Option (List String)) :=
  match v with
  | none => .ok none
  | some (.arr xs) => (parseElems "tags" 0 xs).map some
  | some _ => .error [arrayTypeIssue "tags"]

/-- Applicative combination of field results, collecting issues from both
sides, as Zod object parsing aggregates all field-level violations. -/
def zseq : Except (List ZodIssue) (α → β) → Except (List ZodIssue) α →
    Except (List ZodIssue) β
  | .ok f, .ok a => .ok (f a)
  | .ok _, .error es => .error es
  | .error es, .ok _ => .error es
  | .error es1, .error es2 => .error (es1 ++ es2)

/-- `PluginManifestSchema.safeParse`: parses every declared key in shape-key
order (id, name, version, author, description, homepage, compatibleVersions,
permissions, icon, tags), collects all issues, ignores unknown keys, and on
success builds the manifest with defaults filled. -/
def safeParse (raw : RawManifest) : Except (List ZodIssue) PluginManifest :=
  zseq (zseq (zseq (zseq (zseq (zseq (zseq (zseq (zseq (zseq
    (Except.ok PluginManifest.mk)
    (parseId raw.id))
    (parseMinStr "name" raw.name))
    (parseVersion raw.version))
    (parseMinStr "author" raw.author))
    (parseMinStr "description" raw.description))
    (parseHomepage raw.homepage))
    (parseCompat raw.compatibleVersions))
    (parsePermissions raw.permissions))
    (parseIcon raw.icon))
    (parseTags raw.tags)

/-- The issues reported by `safeParse`, empty on success: the error list of
the non-throwing validation variant. -/
def tryValidateErrors (raw : RawManifest) : List ZodIssue :=
  match safeParse raw with
  | .ok _ => []
  | .error es => es

/-- A plugin: a validated manifest together with its lifecycle callbacks,
as assembled by `createPlugin` of src/plugin.ts. -/
structure Plugin (L : Type) where
  manifest : PluginManifest
  lifecycle : L
deriving DecidableEq, Repr

/-- `createPlugin` of src/plugin.ts: validates the manifest argument with
`PluginManifestSchema.parse` and only then constructs the plugin; a validation
failure propagates and no plugin is produced. -/
def createPlugin (raw : RawManifest) (lifecycle : L) :
    Except (List ZodIssue) (Plugin L) :=
  (safeParse raw).map (fun m => ⟨m, lifecycle⟩)

/-- `hasPermission` of src/plugin.ts:
`plugin.manifest.permissions.includes(permission)`. -/
def hasPermission (plugin : Plugin L) (permission : String) : Bool :=
  plugin.manifest.permissions.contains permission

/-- `getPluginMetadata` of src/plugin.ts: the plain-object projection of the
manifest fields it exposes. -/
def getPluginMetadata (plugin : Plugin L) :
    String × String × String × String × String × Option String × List String :=
  (plugin.manifest.id, plugin.manifest.name, plugin.manifest.version,
   plugin.manifest.author, plugin.manifest.description,
   plugin.manifest.homepage, plugin.manifest.permissions)

/-- The identity of a `PermissionDenied` failure: the plugin id and the
missing capability, as required by the enforcement contract. -/
structure PermissionDenied where
  pluginId : String
  missing : String
deriving DecidableEq, Repr

/-- The operation classes of the capability table (spec section 4.3). -/
inductive OperationClass where
  | readTransactions
  | writeTransactions
  | readAccounts
  | writeAccounts
  | readCategories
  | writeCategories
  | networkCall
  | storageAccess
  | registerSettingsPanel
  | registerMenuItem
  | registerDashboardWidget
deriving DecidableEq, Repr

/-- The fixed mapping from operation class to required capability. -/
def requiredCapability : OperationClass → String
  | .readTransactions => "transactions:read"
  | .writeTransactions => "transactions:write"
  | .readAccounts => "accounts:read"
  | .writeAccounts => "accounts:write"
  | .readCategories => "categories:read"
  | .writeCategories => "categories:write"
  | .networkCall => "network:external"
  | .storageAccess => "storage:local"
  | .registerSettingsPanel => "ui:settings"
  | .registerMenuItem => "ui:menu"
  | .registerDashboardWidget => "ui:dashboard"

/-- Modelled from the spec: the PermissionGate enforcement contract. The
repository states it only as doc comments on `PluginContext` in src/types.ts
(the host's boundary implementations are not part of this repository). A gated
boundary call checks membership of the required capability in the plugin's
declared permissions before any work; on a missing capability it returns the
state unchanged together with a `PermissionDenied` naming the plugin id and
the missing capability, and the real work `doWork` is never applied. -/
def gatedCall (plugin : Plugin L) (op : OperationClass)
    (doWork : σ → σ × ρ) (s : σ) : σ × Except PermissionDenied ρ :=
  if hasPermission plugin (requiredCapability op) then
    let res := doWork s
    (res.1, .ok res.2)
  else
    (s, .error ⟨plugin.manifest.id, requiredCapability op⟩)

/-- Modelled from the spec: the EventBus subscriber table. The repository
states the bus only as the `EventEmitter` interface in src/types.ts. The
table keeps (tag, handler) pairs in registration order. -/
structure EventBus (H : Type) where
  handlers : List (String × H)
deriving DecidableEq, Repr

/-- Modelled from the spec: `on(eventType, handler)` appends a registration,
so later registrations are invoked later. -/
def EventBus.on (bus : EventBus H) (tag : String) (h : H) : EventBus H :=
  ⟨bus.handlers ++ [(tag, h)]⟩

/-- The snapshot of subscribers for one tag, in registration order. -/
def subsFor (tag : String) : List (String × H) → List H
  | [] => []
  | (t, h) :: rest => if t = tag then h :: subsFor tag rest else subsFor tag rest

/-- Modelled from the spec: the dispatch loop of `emit`. `fails h = true`
means handler `h` raises on this event; the loop still records the invocation
and moves on to the next handler, so one failure never aborts delivery. The
result is the invocation trace: each invoked handler paired with whether it
failed. -/
def dispatchRun (fails : H → Bool) : List H → List (H × Bool)
  | [] => []
  | h :: rest => (h, fails h) :: dispatchRun fails rest

/-- Modelled from the spec: `emit(event)` takes the snapshot of subscribers
for the event's tag at dispatch start and runs the dispatch loop over it. -/
def EventBus.emit (bus : EventBus H) (tag : String) (fails : H → Bool) :
    List (H × Bool) :=
  dispatchRun fails (subsFor tag bus.handlers)

/-- Spec-side reading of the C2 rule list: the id rule is broken when id is
present as a string that is empty or has a character outside the class. -/
def idRuleBroken : Option RawVal → Bool
  | some (.str s) => decide (s.length = 0) || !(s.toList.all isIdChar)
  | _ => false

/-- Spec-side reading: a display-string rule is broken when the field is a
present string that is empty. -/
def emptyRuleBroken : Option RawVal → Bool
  | some (.str s) => decide (s.length = 0)
  | _ => false

/-- Spec-side reading: the version rule is broken when version is a present
string that does not start with digits dot digits dot digits. -/
def versionRuleBroken : Option RawVal → Bool
  | some (.str s) => !(versionStartOk s)
  | _ => false

/-- Spec-side reading: the homepage rule is broken when homepage is present
as a string that is not a well-formed absolute URL. -/
def homepageRuleBroken : Option RawVal → Bool
  | some (.str s) => !(isAbsoluteURL s)
  | _ => false

/-- Spec-side reading: the permissions rule is broken when permissions is
present as an array containing a non-string element. -/
def permissionsRuleBroken : Option RawVal → Bool
  | some (.arr xs) => xs.any (fun v => !(v.isStr))
  | _ => false

/-- The disjunction of exactly the failure rules enumerated by the claim:
id empty or outside the class; name, author or description empty; version not
starting with the semver triple; homepage present but not an absolute URL;
permissions present with a non-string element. -/
def listedRuleViolated (raw : RawManifest) : Bool :=
  idRuleBroken raw.id || emptyRuleBroken raw.name || emptyRuleBroken raw.author ||
  emptyRuleBroken raw.description || versionRuleBroken raw.version ||
  homepageRuleBroken raw.homepage || permissionsRuleBroken raw.permissions

/-- A required field is shape-correct when it is present as a string. -/
def reqStrShaped : Option RawVal → Bool
  | some (.str _) => true
  | _ => false

/-- An optional string field is shape-correct when absent or a string. -/
def optStrShaped : Option RawVal → Bool
  | none => true
  | some (.str _) => true
  | some _ => false

/-- The permissions field is shape-correct when absent or an array (its
elements may still be non-strings: that is one of the listed rules). -/
def arrShaped : Option RawVal → Bool
  | none => true
  | some (.arr _) => true
  | some _ => false

/-- The tags field is shape-correct when absent or an array of strings. -/
def strArrShaped : Option RawVal → Bool
  | none => true
  | some (.arr xs) => xs.all RawItem.isStr
  | some _ => false

/-- Shape-correct raw input: every required field present as a string,
optional string fields absent or strings, permissions absent or an array,
tags absent or an array of strings. -/
def WellShaped (raw : RawManifest) : Bool :=
  reqStrShaped raw.id && reqStrShaped raw.name && reqStrShaped raw.version &&
  reqStrShaped raw.author && reqStrShaped raw.description &&
  optStrShaped raw.homepage && reqStrShaped raw.compatibleVersions &&
  arrShaped raw.permissions && optStrShaped raw.icon && strArrShaped raw.tags

/-- The required keys of the schema that are absent from a raw input. -/
def missingRequired (raw : RawManifest) : List String :=
  (if raw.id.isNone then ["id"] else []) ++
  (if raw.name.isNone then ["name"] else []) ++
  (if raw.version.isNone then ["version"] else []) ++
  (if raw.author.isNone then ["author"] else []) ++
  (if raw.description.isNone then ["description"] else []) ++
  (if raw.compatibleVersions.isNone then ["compatibleVersions"] else [])

/-- Serialization of a parsed manifest back to a raw record: every present
field is written back verbatim, absent optional fields stay absent. -/
def serialize (m : PluginManifest) : RawManifest where
  id := some (.str m.id)
  name := some (.str m.name)
  version := some (.str m.version)
  author := some (.str m.author)
  description := some (.str m.description)
  homepage := m.homepage.map .str
  compatibleVersions := some (.str m.compatibleVersions)
  permissions := some (.arr (m.permissions.map .str))
  icon := m.icon.map .str
  tags := m.tags.map (fun ts => .arr (ts.map .str))
  extra := []

/-- Removal of the unknown keys from a raw input. -/
def stripUnknown (raw : RawManifest) : RawManifest :=
  { raw with extra := [] }

/-- The issue list of one field result, empty on success. -/
def errsOf : Except (List ZodIssue) α → List ZodIssue
  | .ok _ => []
  | .error es => es

/-- Validity of an absent-or-present homepage value. -/
def homepageOk : Option String → Bool
  | none => true
  | some s => isAbsoluteURL s

/-- The schema constraints that a parsed manifest value satisfies. -/
def ManifestOk (m : PluginManifest) : Bool :=
  idRegexOk m.id && decide (1 ≤ m.name.length) && versionStartOk m.version &&
  decide (1 ≤ m.author.length) && decide (1 ≤ m.description.length) &&
  homepageOk m.homepage

instance {E A : Type} [DecidableEq E] [DecidableEq A] : DecidableEq (Except E A) :=
  fun a b =>
    match a, b with
    | .ok x, .ok y => decidable_of_iff (x = y) (by simp)
    | .error e1, .error e2 => decidable_of_iff (e1 = e2) (by simp)
    | .ok _, .error _ => isFalse (fun h => by cases h)
    | .error _, .ok _ => isFalse (fun h => by cases h)

/-- A fully valid raw manifest, mirroring the repository test suite input. -/
def rawValid : RawManifest :=
  { id := some (.str "test-plugin"), name := some (.str "Test Plugin"),
    version := some (.str "1.0.0"), author := some (.str "Test Author"),
    description := some (.str "A test plugin"),
    compatibleVersions := some (.str "^0.1.0"),
    permissions := some (.arr [.str "transactions:read"]) }

/-- The manifest that `rawValid` parses to. -/
def manifestValid : PluginManifest :=
  { id := "test-plugin", name := "Test Plugin", version := "1.0.0",
    author := "Test Author", description := "A test plugin", homepage := none,
    compatibleVersions := "^0.1.0", permissions := ["transactions:read"],
    icon := none, tags := none }

/-- rawValid with the required compatibleVersions key absent. -/
def rawMissingCompat : RawManifest :=
  { rawValid with compatibleVersions := none }

/-- rawValid with an empty id string. -/
def rawEmptyId : RawManifest :=
  { rawValid with id := some (.str "") }

/-- rawValid with the id key absent. -/
def rawMissingId : RawManifest :=
  { rawValid with id := none }

/-- rawValid with the permissions key absent. -/
def rawNoPerms : RawManifest :=
  { rawValid with permissions := none }

/-- The manifest that `rawNoPerms` parses to: permissions defaulted to empty. -/
def manifestNoPerms : PluginManifest :=
  { manifestValid with permissions := [] }

/-- A plugin holding `manifestValid` with trivial lifecycle callbacks. -/
def pluginRO : Plugin Unit :=
  ⟨manifestValid, ()⟩

/-- The schema fields of a raw input whose field-level parse rejects the
field's value: the violated fields of the input. -/
def violatedFields (raw : RawManifest) : List String :=
  (if (parseId raw.id).isOk then [] else ["id"]) ++
  (if (parseMinStr "name" raw.name).isOk then [] else ["name"]) ++
  (if (parseVersion raw.version).isOk then [] else ["version"]) ++
  (if (parseMinStr "author" raw.author).isOk then [] else ["author"]) ++
  (if (parseMinStr "description" raw.description).isOk then [] else ["description"]) ++
  (if (parseHomepage raw.homepage).isOk then [] else ["homepage"]) ++
  (if (parseCompat raw.compatibleVersions).isOk then [] else ["compatibleVersions"]) ++
  (if (parsePermissions raw.permissions).isOk then [] else ["permissions"]) ++
  (if (parseIcon raw.icon).isOk then [] else ["icon"]) ++
  (if (parseTags raw.tags).isOk then [] else ["tags"])

lemma errsOf_zseq (f : Except (List ZodIssue) (α → β)) (a : Except (List ZodIssue) α) :
    errsOf (zseq f a) = errsOf f ++ errsOf a := by
  cases f <;> cases a <;> simp [zseq, errsOf]

lemma isOk_zseq (f : Except (List ZodIssue) (α → β)) (a : Except (List ZodIssue) α) :
    (zseq f a).isOk = (f.isOk && a.isOk) := by
  cases f <;> cases a <;> simp [zseq, Except.isOk, Except.toBool]

lemma zseq_ok_inv {f : Except (List ZodIssue) (α → β)} {a : Except (List ZodIssue) α}
    {b : β} (h : zseq f a = .ok b) : ∃ g x, f = .ok g ∧ a = .ok x ∧ g x = b := by
  cases f with
  | error es => cases a <;> simp [zseq] at h
  | ok g =>
    cases a with
    | error es => simp [zseq] at h
    | ok x => exact ⟨g, x, rfl, rfl, by simpa [zseq] using h⟩

lemma safeParse_ok_inv {raw : RawManifest} {m : PluginManifest}
    (h : safeParse raw = .ok m) :
    parseId raw.id = .ok m.id ∧ parseMinStr "name" raw.name = .ok m.name ∧
    parseVersion raw.version = .ok m.version ∧
    parseMinStr "author" raw.author = .ok m.author ∧
    parseMinStr "description" raw.description = .ok m.description ∧
    parseHomepage raw.homepage = .ok m.homepage ∧
    parseCompat raw.compatibleVersions = .ok m.compatibleVersions ∧
    parsePermissions raw.permissions = .ok m.permissions ∧
    parseIcon raw.icon = .ok m.icon ∧ parseTags raw.tags = .ok m.tags := by
  unfold safeParse at h
  obtain ⟨g9, xTags, hA, hTags, hm⟩ := zseq_ok_inv h
  obtain ⟨g8, xIcon, hB, hIcon, hg9⟩ := zseq_ok_inv hA
  obtain ⟨g7, xPerm, hC, hPerm, hg8⟩ := zseq_ok_inv hB
  obtain ⟨g6, xCompat, hD, hCompat, hg7⟩ := zseq_ok_inv hC
  obtain ⟨g5, xHome, hE, hHome, hg6⟩ := zseq_ok_inv hD
  obtain ⟨g4, xDesc, hF, hDesc, hg5⟩ := zseq_ok_inv hE
  obtain ⟨g3, xAuthor, hG, hAuthor, hg4⟩ := zseq_ok_inv hF
  obtain ⟨g2, xVersion, hH, hVersion, hg3⟩ := zseq_ok_inv hG
  obtain ⟨g1, xName, hI, hName, hg2⟩ := zseq_ok_inv hH
  obtain ⟨g0, xId, hJ, hId, hg1⟩ := zseq_ok_inv hI
  injection hJ with hg0
  subst hg0 hg1 hg2 hg3 hg4 hg5 hg6 hg7 hg8 hg9
  subst hm
  exact ⟨hId, hName, hVersion, hAuthor, hDesc, hHome, hCompat, hPerm, hIcon, hTags⟩

lemma parseId_ok {v : Option RawVal} {t : String} (h : parseId v = .ok t) :
    idRegexOk t = true := by
  cases v with
  | none => simp [parseId] at h
  | some w =>
    cases w with
    | str s =>
      simp only [parseId] at h
      by_cases hr : idRegexOk s
      · by_cases hl : s.length < 1 <;> simp [hl, hr] at h
        · subst h; exact hr
      · by_cases hl : s.length < 1 <;> simp [hl, hr] at h
    | arr xs => simp [parseId] at h
    | other => simp [parseId] at h

lemma parseMinStr_ok {f : String} {v : Option RawVal} {t : String}
    (h : parseMinStr f v = .ok t) : 1 ≤ t.length := by
  cases v with
  | none => simp [parseMinStr] at h
  | some w =>
    cases w with
    | str s =>
      by_cases hl : s.length < 1 <;> simp [parseMinStr, hl] at h
      subst h; omega
    | arr xs => simp [parseMinStr] at h
    | other => simp [parseMinStr] at h

lemma parseVersion_ok {v : Option RawVal} {t : String}
    (h : parseVersion v = .ok t) : versionStartOk t = true := by
  cases v with
  | none => simp [parseVersion] at h
  | some w =>
    cases w with
    | str s =>
      by_cases hv : versionStartOk s <;> simp [parseVersion, hv] at h
      subst h; exact hv
    | arr xs => simp [parseVersion] at h
    | other => simp [parseVersion] at h

lemma parseHomepage_ok {v : Option RawVal} {o : Option String}
    (h : parseHomepage v = .ok o) : homepageOk o = true := by
  cases v with
  | none => simp [parseHomepage] at h; subst h; rfl
  | some w =>
    cases w with
    | str s =>
      by_cases hu : isAbsoluteURL s <;> simp [parseHomepage, hu] at h
      subst h; exact hu
    | arr xs => simp [parseHomepage] at h
    | other => simp [parseHomepage] at h

lemma manifestOk_of_parse {raw : RawManifest} {m : PluginManifest}
    (h : safeParse raw = .ok m) : ManifestOk m = true := by
  obtain ⟨hId, hName, hVersion, hAuthor, hDesc, hHome, -, -, -, -⟩ := safeParse_ok_inv h
  simp [ManifestOk, parseId_ok hId, parseMinStr_ok hName, parseVersion_ok hVersion,
    parseMinStr_ok hAuthor, parseMinStr_ok hDesc, parseHomepage_ok hHome]

lemma parseId_of_ok {s : String} (h : idRegexOk s = true) :
    parseId (some (.str s)) = .ok s := by
  have hlen : ¬ (s.length < 1) := by
    simp only [idRegexOk, Bool.and_eq_true, Bool.not_eq_true', decide_eq_false_iff_not] at h
    obtain ⟨h0, -⟩ := h
    omega
  simp [parseId, hlen, h]

lemma parseMinStr_of_ok (f : String) {s : String} (h : 1 ≤ s.length) :
    parseMinStr f (some (.str s)) = .ok s := by
  have hlen : ¬ (s.length < 1) := by omega
  simp [parseMinStr, hlen]

lemma parseVersion_of_ok {s : String} (h : versionStartOk s = true) :
    parseVersion (some (.str s)) = .ok s := by
  simp [parseVersion, h]

lemma parseHomepage_of_ok {o : Option String} (h : homepageOk o = true) :
    parseHomepage (o.map RawVal.str) = .ok o := by
  cases o with
  | none => rfl
  | some s =>
    simp only [homepageOk] at h
    simp [parseHomepage, h]

lemma parseIcon_map (o : Option String) : parseIcon (o.map RawVal.str) = .ok o := by
  cases o <;> rfl

lemma parseElems_map_str (f : String) (i : Nat) (ss : List String) :
    parseElems f i (ss.map RawItem.str) = .ok ss := by
  induction ss generalizing i with
  | nil => rfl
  | cons s rest ih => simp [parseElems, ih]

lemma parsePermissions_map (ps : List String) :
    parsePermissions (some (.arr (ps.map RawItem.str))) = .ok ps := by
  simp [parsePermissions, parseElems_map_str]

lemma parseTags_map (o : Option (List String)) :
    parseTags (o.map (fun ts => RawVal.arr (ts.map RawItem.str))) = .ok o := by
  cases o with
  | none => rfl
  | some ts => simp [parseTags, parseElems_map_str, Except.map]

lemma parse_serialize_of_ok {m : PluginManifest} (h : ManifestOk m = true) :
    safeParse (serialize m) = .ok m := by
  simp only [ManifestOk, Bool.and_eq_true, decide_eq_true_eq] at h
  obtain ⟨⟨⟨⟨⟨hid, hname⟩, hver⟩, hauth⟩, hdesc⟩, hhome⟩ := h
  show safeParse (serialize m) = .ok m
  unfold safeParse serialize
  rw [show (RawManifest.mk (some (.str m.id)) (some (.str m.name))
        (some (.str m.version)) (some (.str m.author)) (some (.str m.description))
        (m.homepage.map .str) (some (.str m.compatibleVersions))
        (some (.arr (m.permissions.map .str))) (m.icon.map .str)
        (m.tags.map (fun ts => .arr (ts.map .str))) []).id = some (.str m.id) from rfl]
  rw [parseId_of_ok hid, parseMinStr_of_ok _ hname, parseVersion_of_ok hver,
    parseMinStr_of_ok _ hauth, parseMinStr_of_ok _ hdesc, parseHomepage_of_ok hhome,
    parsePermissions_map, parseTags_map, parseIcon_map]
  rfl

lemma parseId_str_isOk (s : String) :
    (parseId (some (.str s))).isOk = idRegexOk s := by
  by_cases hr : idRegexOk s
  · have hlen : ¬ (s.length < 1) := by
      simp only [idRegexOk, Bool.and_eq_true, Bool.not_eq_true', decide_eq_false_iff_not] at hr
      obtain ⟨h0, -⟩ := hr
      omega
    simp [parseId, hlen, hr, Except.isOk, Except.toBool]
  · by_cases hl : s.length < 1 <;>
      simp [parseId, hl, hr, Except.isOk, Except.toBool]

lemma parseMinStr_str_isOk (f s : String) :
    (parseMinStr f (some (.str s))).isOk = !(decide (s.length = 0)) := by
  by_cases hl : s.length = 0
  · have : s.length < 1 := by omega
    simp [parseMinStr, this, hl, Except.isOk, Except.toBool]
  · have : ¬ (s.length < 1) := by omega
    simp [parseMinStr, this, hl, Except.isOk, Except.toBool]

lemma parseVersion_str_isOk (s : String) :
    (parseVersion (some (.str s))).isOk = versionStartOk s := by
  by_cases hv : versionStartOk s <;>
    simp [parseVersion, hv, Except.isOk, Except.toBool]

lemma parseHomepage_str_isOk (s : String) :
    (parseHomepage (some (.str s))).isOk = isAbsoluteURL s := by
  by_cases hu : isAbsoluteURL s <;>
    simp [parseHomepage, hu, Except.isOk, Except.toBool]

lemma parseElems_isOk (f : String) (i : Nat) (xs : List RawItem) :
    (parseElems f i xs).isOk = xs.all RawItem.isStr := by
  induction xs generalizing i with
  | nil => rfl
  | cons v rest ih =>
    have hih := ih (i + 1)
    cases v with
    | str s =>
      cases h : parseElems f (i + 1) rest <;> rw [h] at hih <;>
        simp [parseElems, h, RawItem.isStr, Except.isOk, Except.toBool] at hih ⊢ <;>
        exact hih
    | nonStr =>
      cases h : parseElems f (i + 1) rest <;>
        simp [parseElems, h, RawItem.isStr, Except.isOk, Except.toBool]

lemma isOk_map_some (e : Except (List ZodIssue) (List String)) :
    (Except.map some e).isOk = e.isOk := by
  cases e <;> rfl

lemma reqStrShaped_cases {v : Option RawVal} (h : reqStrShaped v = true) :
    ∃ s, v = some (.str s) := by
  cases v with
  | none => simp [reqStrShaped] at h
  | some w =>
    cases w with
    | str s => exact ⟨s, rfl⟩
    | arr xs => simp [reqStrShaped] at h
    | other => simp [reqStrShaped] at h

lemma optStrShaped_cases {v : Option RawVal} (h : optStrShaped v = true) :
    v = none ∨ ∃ s, v = some (.str s) := by
  cases v with
  | none => exact Or.inl rfl
  | some w =>
    cases w with
    | str s => exact Or.inr ⟨s, rfl⟩
    | arr xs => simp [optStrShaped] at h
    | other => simp [optStrShaped] at h

lemma arrShaped_cases {v : Option RawVal} (h : arrShaped v = true) :
    v = none ∨ ∃ xs, v = some (.arr xs) := by
  cases v with
  | none => exact Or.inl rfl
  | some w =>
    cases w with
    | str s => simp [arrShaped] at h
    | arr xs => exact Or.inr ⟨xs, rfl⟩
    | other => simp [arrShaped] at h

lemma strArrShaped_cases {v : Option RawVal} (h : strArrShaped v = true) :
    v = none ∨ ∃ xs, v = some (.arr xs) ∧ xs.all RawItem.isStr = true := by
  cases v with
  | none => exact Or.inl rfl
  | some w =>
    cases w with
    | str s => simp [strArrShaped] at h
    | arr xs => exact Or.inr ⟨xs, rfl, by simpa [strArrShaped] using h⟩
    | other => simp [strArrShaped] at h

lemma any_not_isStr (xs : List RawItem) :
    xs.any (fun v => !(v.isStr)) = !(xs.all RawItem.isStr) := by
  induction xs with
  | nil => rfl
  | cons v rest ih => cases hv : v.isStr <;> simp [hv, ih]

lemma parseId_isOk_shaped {v : Option RawVal} (h : reqStrShaped v = true) :
    (parseId v).isOk = !(idRuleBroken v) := by
  obtain ⟨s, rfl⟩ := reqStrShaped_cases h
  rw [parseId_str_isOk]
  simp only [idRegexOk, idRuleBroken]
  generalize decide (s.length = 0) = b1
  generalize s.toList.all isIdChar = b2
  revert b1 b2
  decide

lemma parseMinStr_isOk_shaped (f : String) {v : Option RawVal}
    (h : reqStrShaped v = true) :
    (parseMinStr f v).isOk = !(emptyRuleBroken v) := by
  obtain ⟨s, rfl⟩ := reqStrShaped_cases h
  rw [parseMinStr_str_isOk]
  simp only [emptyRuleBroken]

lemma parseVersion_isOk_shaped {v : Option RawVal} (h : reqStrShaped v = true) :
    (parseVersion v).isOk = !(versionRuleBroken v) := by
  obtain ⟨s, rfl⟩ := reqStrShaped_cases h
  rw [parseVersion_str_isOk]
  simp [versionRuleBroken]

lemma parseHomepage_isOk_shaped {v : Option RawVal} (h : optStrShaped v = true) :
    (parseHomepage v).isOk = !(homepageRuleBroken v) := by
  rcases optStrShaped_cases h with rfl | ⟨s, rfl⟩
  · rfl
  · rw [parseHomepage_str_isOk]
    simp [homepageRuleBroken]

lemma parseCompat_isOk_shaped {v : Option RawVal} (h : reqStrShaped v = true) :
    (parseCompat v).isOk = true := by
  obtain ⟨s, rfl⟩ := reqStrShaped_cases h
  rfl

lemma parsePermissions_isOk_shaped {v : Option RawVal} (h : arrShaped v = true) :
    (parsePermissions v).isOk = !(permissionsRuleBroken v) := by
  rcases arrShaped_cases h with rfl | ⟨xs, rfl⟩
  · rfl
  · show (parseElems "permissions" 0 xs).isOk = _
    rw [parseElems_isOk]
    simp [permissionsRuleBroken, any_not_isStr]

lemma parseIcon_isOk_shaped {v : Option RawVal} (h : optStrShaped v = true) :
    (parseIcon v).isOk = true := by
  rcases optStrShaped_cases h with rfl | ⟨s, rfl⟩ <;> rfl

lemma parseTags_isOk_shaped {v : Option RawVal} (h : strArrShaped v = true) :
    (parseTags v).isOk = true := by
  rcases strArrShaped_cases h with rfl | ⟨xs, rfl, hall⟩
  · rfl
  · show ((parseElems "tags" 0 xs).map some).isOk = true
    rw [isOk_map_some, parseElems_isOk, hall]

lemma wellShaped_fields {raw : RawManifest} (h : WellShaped raw = true) :
    reqStrShaped raw.id = true ∧ reqStrShaped raw.name = true ∧
    reqStrShaped raw.version = true ∧ reqStrShaped raw.author = true ∧
    reqStrShaped raw.description = true ∧ optStrShaped raw.homepage = true ∧
    reqStrShaped raw.compatibleVersions = true ∧ arrShaped raw.permissions = true ∧
    optStrShaped raw.icon = true ∧ strArrShaped raw.tags = true := by
  simp only [WellShaped, Bool.and_eq_true] at h
  tauto

lemma safeParse_isOk_shaped {raw : RawManifest} (h : WellShaped raw = true) :
    (safeParse raw).isOk = !(listedRuleViolated raw) := by
  obtain ⟨h1, h2, h3, h4, h5, h6, h7, h8, h9, h10⟩ := wellShaped_fields h
  unfold safeParse
  rw [isOk_zseq, isOk_zseq, isOk_zseq, isOk_zseq, isOk_zseq, isOk_zseq, isOk_zseq,
    isOk_zseq, isOk_zseq, isOk_zseq]
  rw [parseId_isOk_shaped h1, parseMinStr_isOk_shaped _ h2, parseVersion_isOk_shaped h3,
    parseMinStr_isOk_shaped _ h4, parseMinStr_isOk_shaped _ h5,
    parseHomepage_isOk_shaped h6, parseCompat_isOk_shaped h7,
    parsePermissions_isOk_shaped h8, parseIcon_isOk_shaped h9, parseTags_isOk_shaped h10]
  simp only [listedRuleViolated, Except.isOk, Except.toBool]
  generalize idRuleBroken raw.id = b1
  generalize emptyRuleBroken raw.name = b2
  generalize versionRuleBroken raw.version = b3
  generalize emptyRuleBroken raw.author = b4
  generalize emptyRuleBroken raw.description = b5
  generalize homepageRuleBroken raw.homepage = b6
  generalize permissionsRuleBroken raw.permissions = b7
  revert b1 b2 b3 b4 b5 b6 b7
  decide

lemma dispatchRun_fst (fails : H → Bool) (hs : List H) :
    (dispatchRun fails hs).map Prod.fst = hs := by
  induction hs with
  | nil => rfl
  | cons h rest ih => simp [dispatchRun, ih]

lemma subsFor_mem (tag : String) (l : List (String × H)) (h : H) :
    h ∈ subsFor tag l ↔ (tag, h) ∈ l := by
  induction l with
  | nil => simp [subsFor]
  | cons p rest ih =>
    obtain ⟨t, x⟩ := p
    by_cases ht : t = tag
    · subst ht
      simp [subsFor, ih, Prod.ext_iff]
    · simp [subsFor, ht, ih, Prod.ext_iff]
      tauto

lemma subsFor_count [DecidableEq H] (tag : String) (l : List (String × H)) (h : H) :
    (subsFor tag l).count h = l.count (tag, h) := by
  induction l with
  | nil => rfl
  | cons p rest ih =>
    obtain ⟨t, x⟩ := p
    by_cases ht : t = tag
    · subst ht
      by_cases hx : x = h
      · subst hx
        simp [subsFor, List.count_cons, ih]
      · simp [subsFor, List.count_cons, ih, hx]
    · have hne : ((t, x) : String × H) ≠ (tag, h) := by
        intro hcontra
        exact ht (congrArg Prod.fst hcontra)
      simp [subsFor, ht, List.count_cons, ih, hne]

lemma subsFor_append (tag : String) (l1 l2 : List (String × H)) :
    subsFor tag (l1 ++ l2) = subsFor tag l1 ++ subsFor tag l2 := by
  induction l1 with
  | nil => rfl
  | cons p rest ih =>
    obtain ⟨t, x⟩ := p
    by_cases ht : t = tag <;> simp [subsFor, ht, ih]

lemma tryValidateErrors_eq_errsOf (raw : RawManifest) :
    tryValidateErrors raw = errsOf (safeParse raw) := by
  unfold tryValidateErrors
  cases h : safeParse raw <;> simp [errsOf]

lemma tryValidateErrors_fields (raw : RawManifest) :
    tryValidateErrors raw =
      errsOf (parseId raw.id) ++ errsOf (parseMinStr "name" raw.name) ++
      errsOf (parseVersion raw.version) ++ errsOf (parseMinStr "author" raw.author) ++
      errsOf (parseMinStr "description" raw.description) ++
      errsOf (parseHomepage raw.homepage) ++
      errsOf (parseCompat raw.compatibleVersions) ++
      errsOf (parsePermissions raw.permissions) ++ errsOf (parseIcon raw.icon) ++
      errsOf (parseTags raw.tags) := by
  rw [tryValidateErrors_eq_errsOf]
  unfold safeParse
  rw [errsOf_zseq, errsOf_zseq, errsOf_zseq, errsOf_zseq, errsOf_zseq, errsOf_zseq,
    errsOf_zseq, errsOf_zseq, errsOf_zseq, errsOf_zseq]
  simp [errsOf]

lemma missing_id_reported {raw : RawManifest} (h : raw.id = none) :
    requiredIssue "id" ∈ tryValidateErrors raw := by
  rw [tryValidateErrors_fields, h]
  simp [parseId, errsOf]

lemma missing_name_reported {raw : RawManifest} (h : raw.name = none) :
    requiredIssue "name" ∈ tryValidateErrors raw := by
  rw [tryValidateErrors_fields, h]
  simp [parseMinStr, errsOf]

lemma missing_version_reported {raw : RawManifest} (h : raw.version = none) :
    requiredIssue "version" ∈ tryValidateErrors raw := by
  rw [tryValidateErrors_fields, h]
  simp [parseVersion, errsOf]

lemma missing_author_reported {raw : RawManifest} (h : raw.author = none) :
    requiredIssue "author" ∈ tryValidateErrors raw := by
  rw [tryValidateErrors_fields, h]
  simp [parseMinStr, errsOf]

lemma missing_description_reported {raw : RawManifest} (h : raw.description = none) :
    requiredIssue "description" ∈ tryValidateErrors raw := by
  rw [tryValidateErrors_fields, h]
  simp [parseMinStr, errsOf]

lemma missing_compat_reported {raw : RawManifest} (h : raw.compatibleVersions = none) :
    requiredIssue "compatibleVersions" ∈ tryValidateErrors raw := by
  rw [tryValidateErrors_fields, h]
  simp [parseCompat, errsOf]

/-- C1: the permission membership check `hasPermission` is an exact string
membership test on the declared permissions: it returns true exactly when the
capability occurs verbatim in `manifest.permissions`, with no wildcard, prefix
or hierarchy matching; in particular a plugin declaring only
transactions:write is not granted transactions:read. -/
theorem C1_hasPermission_exact_membership (L : Type) (lc : L)
    (m : PluginManifest) (c : String) :
    (hasPermission ⟨m, lc⟩ c = true ↔ c ∈ m.permissions) ∧
    hasPermission (Plugin.mk { manifestValid with permissions := ["transactions:write"] } ())
      "transactions:read" = false := by
  constructor
  · simp [hasPermission, List.contains, List.elem_iff]
  · decide

/-- C2 (amended): for shape-correct raw inputs (all required fields present
as strings, optional string fields absent or strings, permissions absent or
an array, tags absent or an array of strings), validation succeeds exactly
when none of the listed rules is violated: id empty or with a character
outside the class, name or author or description empty, version not starting
with the semver triple, homepage present but not an absolute URL, permissions
present with a non-string element. -/
theorem C2_validation_decided_by_listed_rules (raw : RawManifest)
    (h : WellShaped raw = true) :
    (safeParse raw).isOk = !(listedRuleViolated raw) :=
  safeParse_isOk_shaped h

/-- Witness for C2 at the concrete valid raw manifest. -/
theorem C2_validation_decided_by_listed_rules_witness :
    WellShaped rawValid = true ∧
    (safeParse rawValid).isOk = !(listedRuleViolated rawValid) :=
  ⟨by decide, C2_validation_decided_by_listed_rules rawValid (by decide)⟩

/-- Counterexample to C2 as stated over all raw inputs: a raw input whose
required compatibleVersions key is absent fails validation although it
violates none of the listed rules, so validation does not succeed whenever
the listed rules all hold. -/
theorem C2_counterexample_missing_compat :
    (safeParse rawMissingCompat).isOk = false ∧
    listedRuleViolated rawMissingCompat = false := by
  decide

lemma errsOf_map {A B : Type} (g : A → B) (e : Except (List ZodIssue) A) :
    errsOf (e.map g) = errsOf e := by
  cases e <;> rfl

lemma errsOf_mem_not_ok {A : Type} {e : Except (List ZodIssue) A} {i : ZodIssue}
    (hi : i ∈ errsOf e) : e.isOk = false := by
  cases e with
  | ok a => simp [errsOf] at hi
  | error es => rfl

lemma exists_entry_of_errs {A : Type} {P : Except (List ZodIssue) A} {f : String}
    (hne : errsOf P ≠ [])
    (hhead : ∀ i ∈ errsOf P, i.path.head? = some (PathSeg.key f)) :
    ∃ i ∈ errsOf P, i.path.head? = some (PathSeg.key f) := by
  obtain ⟨i, hi⟩ := List.exists_mem_of_ne_nil _ hne
  exact ⟨i, hi, hhead i hi⟩

lemma parseId_path (v : Option RawVal) :
    ∀ i ∈ errsOf (parseId v), i.path.head? = some (PathSeg.key "id") := by
  intro i hi
  cases v with
  | none =>
    simp [parseId, errsOf] at hi
    subst hi
    rfl
  | some w =>
    cases w with
    | str s =>
      by_cases h1 : s.length < 1 <;> by_cases h2 : idRegexOk s <;>
        simp [parseId, errsOf, h1, h2] at hi <;>
        first
          | (subst hi; rfl)
          | (rcases hi with rfl | rfl <;> rfl)
    | arr xs =>
      simp [parseId, errsOf] at hi
      subst hi
      rfl
    | other =>
      simp [parseId, errsOf] at hi
      subst hi
      rfl

lemma parseMinStr_path (f : String) (v : Option RawVal) :
    ∀ i ∈ errsOf (parseMinStr f v), i.path.head? = some (PathSeg.key f) := by
  intro i hi
  cases v with
  | none =>
    simp [parseMinStr, errsOf] at hi
    subst hi
    rfl
  | some w =>
    cases w with
    | str s =>
      by_cases h1 : s.length < 1 <;> simp [parseMinStr, errsOf, h1] at hi
      subst hi
      rfl
    | arr xs =>
      simp [parseMinStr, errsOf] at hi
      subst hi
      rfl
    | other =>
      simp [parseMinStr, errsOf] at hi
      subst hi
      rfl

lemma parseVersion_path (v : Option RawVal) :
    ∀ i ∈ errsOf (parseVersion v), i.path.head? = some (PathSeg.key "version") := by
  intro i hi
  cases v with
  | none =>
    simp [parseVersion, errsOf] at hi
    subst hi
    rfl
  | some w =>
    cases w with
    | str s =>
      by_cases h1 : versionStartOk s <;> simp [parseVersion, errsOf, h1] at hi
      subst hi
      rfl
    | arr xs =>
      simp [parseVersion, errsOf] at hi
      subst hi
      rfl
    | other =>
      simp [parseVersion, errsOf] at hi
      subst hi
      rfl

lemma parseHomepage_path (v : Option RawVal) :
    ∀ i ∈ errsOf (parseHomepage v), i.path.head? = some (PathSeg.key "homepage") := by
  intro i hi
  cases v with
  | none => simp [parseHomepage, errsOf] at hi
  | some w =>
    cases w with
    | str s =>
      by_cases h1 : isAbsoluteURL s <;> simp [parseHomepage, errsOf, h1] at hi
      subst hi
      rfl
    | arr xs =>
      simp [parseHomepage, errsOf] at hi
      subst hi
      rfl
    | other =>
      simp [parseHomepage, errsOf] at hi
      subst hi
      rfl

lemma parseCompat_path (v : Option RawVal) :
    ∀ i ∈ errsOf (parseCompat v), i.path.head? = some (PathSeg.key "compatibleVersions") := by
  intro i hi
  cases v with
  | none =>
    simp [parseCompat, errsOf] at hi
    subst hi
    rfl
  | some w =>
    cases w with
    | str s => simp [parseCompat, errsOf] at hi
    | arr xs =>
      simp [parseCompat, errsOf] at hi
      subst hi
      rfl
    | other =>
      simp [parseCompat, errsOf] at hi
      subst hi
      rfl

lemma parseIcon_path (v : Option RawVal) :
    ∀ i ∈ errsOf (parseIcon v), i.path.head? = some (PathSeg.key "icon") := by
  intro i hi
  cases v with
  | none => simp [parseIcon, errsOf] at hi
  | some w =>
    cases w with
    | str s => simp [parseIcon, errsOf] at hi
    | arr xs =>
      simp [parseIcon, errsOf] at hi
      subst hi
      rfl
    | other =>
      simp [parseIcon, errsOf] at hi
      subst hi
      rfl

lemma parseElems_path (f : String) (k : Nat) (xs : List RawItem) :
    ∀ i ∈ errsOf (parseElems f k xs), i.path.head? = some (PathSeg.key f) := by
  induction xs generalizing k with
  | nil => intro i hi; simp [parseElems, errsOf] at hi
  | cons v rest ih =>
    intro i hi
    cases v with
    | str s =>
      cases h : parseElems f (k + 1) rest with
      | ok ss => simp [parseElems, h, errsOf] at hi
      | error es =>
        simp only [parseElems, h, errsOf] at hi
        exact ih (k + 1) i (by rw [h]; exact hi)
    | nonStr =>
      cases h : parseElems f (k + 1) rest with
      | ok ss =>
        simp [parseElems, h, errsOf] at hi
        subst hi
        rfl
      | error es =>
        simp only [parseElems, h, errsOf, List.mem_cons] at hi
        rcases hi with rfl | hi
        · rfl
        · exact ih (k + 1) i (by rw [h]; exact hi)

lemma parsePermissions_path (v : Option RawVal) :
    ∀ i ∈ errsOf (parsePermissions v), i.path.head? = some (PathSeg.key "permissions") := by
  intro i hi
  cases v with
  | none => simp [parsePermissions, errsOf] at hi
  | some w =>
    cases w with
    | str s =>
      simp [parsePermissions, errsOf] at hi
      subst hi
      rfl
    | arr xs => exact parseElems_path "permissions" 0 xs i hi
    | other =>
      simp [parsePermissions, errsOf] at hi
      subst hi
      rfl

lemma parseTags_path (v : Option RawVal) :
    ∀ i ∈ errsOf (parseTags v), i.path.head? = some (PathSeg.key "tags") := by
  intro i hi
  cases v with
  | none => simp [parseTags, errsOf] at hi
  | some w =>
    cases w with
    | str s =>
      simp [parseTags, errsOf] at hi
      subst hi
      rfl
    | arr xs =>
      simp only [parseTags, errsOf_map] at hi
      exact parseElems_path "tags" 0 xs i hi
    | other =>
      simp [parseTags, errsOf] at hi
      subst hi
      rfl

lemma parseId_errs_ne (v : Option RawVal) (h : (parseId v).isOk = false) :
    errsOf (parseId v) ≠ [] := by
  cases v with
  | none => simp [parseId, errsOf]
  | some w =>
    cases w with
    | str s =>
      by_cases h1 : s.length < 1 <;> by_cases h2 : idRegexOk s <;>
        simp [parseId, errsOf, h1, h2, Except.isOk, Except.toBool] at h ⊢
    | arr xs => simp [parseId, errsOf]
    | other => simp [parseId, errsOf]

lemma parseMinStr_errs_ne (f : String) (v : Option RawVal)
    (h : (parseMinStr f v).isOk = false) : errsOf (parseMinStr f v) ≠ [] := by
  cases v with
  | none => simp [parseMinStr, errsOf]
  | some w =>
    cases w with
    | str s =>
      by_cases h1 : s.length < 1 <;>
        simp [parseMinStr, errsOf, h1, Except.isOk, Except.toBool] at h ⊢
    | arr xs => simp [parseMinStr, errsOf]
    | other => simp [parseMinStr, errsOf]

lemma parseVersion_errs_ne (v : Option RawVal) (h : (parseVersion v).isOk = false) :
    errsOf (parseVersion v) ≠ [] := by
  cases v with
  | none => simp [parseVersion, errsOf]
  | some w =>
    cases w with
    | str s =>
      by_cases h1 : versionStartOk s <;>
        simp [parseVersion, errsOf, h1, Except.isOk, Except.toBool] at h ⊢
    | arr xs => simp [parseVersion, errsOf]
    | other => simp [parseVersion, errsOf]

lemma parseHomepage_errs_ne (v : Option RawVal) (h : (parseHomepage v).isOk = false) :
    errsOf (parseHomepage v) ≠ [] := by
  cases v with
  | none => simp [parseHomepage, Except.isOk, Except.toBool] at h
  | some w =>
    cases w with
    | str s =>
      by_cases h1 : isAbsoluteURL s <;>
        simp [parseHomepage, errsOf, h1, Except.isOk, Except.toBool] at h ⊢
    | arr xs => simp [parseHomepage, errsOf]
    | other => simp [parseHomepage, errsOf]

lemma parseCompat_errs_ne (v : Option RawVal) (h : (parseCompat v).isOk = false) :
    errsOf (parseCompat v) ≠ [] := by
  cases v with
  | none => simp [parseCompat, errsOf]
  | some w =>
    cases w with
    | str s => simp [parseCompat, Except.isOk, Except.toBool] at h
    | arr xs => simp [parseCompat, errsOf]
    | other => simp [parseCompat, errsOf]

lemma parseIcon_errs_ne (v : Option RawVal) (h : (parseIcon v).isOk = false) :
    errsOf (parseIcon v) ≠ [] := by
  cases v with
  | none => simp [parseIcon, Except.isOk, Except.toBool] at h
  | some w =>
    cases w with
    | str s => simp [parseIcon, Except.isOk, Except.toBool] at h
    | arr xs => simp [parseIcon, errsOf]
    | other => simp [parseIcon, errsOf]

lemma parseElems_errs_ne (f : String) (k : Nat) (xs : List RawItem)
    (h : (parseElems f k xs).isOk = false) : errsOf (parseElems f k xs) ≠ [] := by
  induction xs generalizing k with
  | nil => simp [parseElems, Except.isOk, Except.toBool] at h
  | cons v rest ih =>
    cases v with
    | str s =>
      cases hr : parseElems f (k + 1) rest with
      | ok ss => simp [parseElems, hr, Except.isOk, Except.toBool] at h
      | error es =>
        have hrec := ih (k + 1) (by simp [hr, Except.isOk, Except.toBool])
        rw [hr] at hrec
        simpa [parseElems, hr, errsOf] using hrec
    | nonStr =>
      cases hr : parseElems f (k + 1) rest with
      | ok ss => simp [parseElems, hr, errsOf]
      | error es => simp [parseElems, hr, errsOf]

lemma parsePermissions_errs_ne (v : Option RawVal)
    (h : (parsePermissions v).isOk = false) : errsOf (parsePermissions v) ≠ [] := by
  cases v with
  | none => simp [parsePermissions, Except.isOk, Except.toBool] at h
  | some w =>
    cases w with
    | str s => simp [parsePermissions, errsOf]
    | arr xs => exact parseElems_errs_ne "permissions" 0 xs h
    | other => simp [parsePermissions, errsOf]

lemma parseTags_errs_ne (v : Option RawVal) (h : (parseTags v).isOk = false) :
    errsOf (parseTags v) ≠ [] := by
  cases v with
  | none => simp [parseTags, Except.isOk, Except.toBool] at h
  | some w =>
    cases w with
    | str s => simp [parseTags, errsOf]
    | arr xs =>
      have h2 : (parseElems "tags" 0 xs).isOk = false := by
        rw [← isOk_map_some]
        exact h
      have := parseElems_errs_ne "tags" 0 xs h2
      simpa [parseTags, errsOf_map] using this
    | other => simp [parseTags, errsOf]

lemma if_nil_iff (b : Bool) (s : String) :
    ((if b then ([] : List String) else [s]) = []) ↔ b = true := by
  cases b <;> simp

lemma safeParse_isOk_fields (raw : RawManifest) :
    (safeParse raw).isOk =
      ((parseId raw.id).isOk && (parseMinStr "name" raw.name).isOk &&
       (parseVersion raw.version).isOk && (parseMinStr "author" raw.author).isOk &&
       (parseMinStr "description" raw.description).isOk &&
       (parseHomepage raw.homepage).isOk && (parseCompat raw.compatibleVersions).isOk &&
       (parsePermissions raw.permissions).isOk && (parseIcon raw.icon).isOk &&
       (parseTags raw.tags).isOk) := by
  unfold safeParse
  rw [isOk_zseq, isOk_zseq, isOk_zseq, isOk_zseq, isOk_zseq, isOk_zseq, isOk_zseq,
    isOk_zseq, isOk_zseq, isOk_zseq]
  simp [Except.isOk, Except.toBool]

lemma violatedFields_nil (raw : RawManifest) :
    violatedFields raw = [] ↔
      ((parseId raw.id).isOk && (parseMinStr "name" raw.name).isOk &&
       (parseVersion raw.version).isOk && (parseMinStr "author" raw.author).isOk &&
       (parseMinStr "description" raw.description).isOk &&
       (parseHomepage raw.homepage).isOk && (parseCompat raw.compatibleVersions).isOk &&
       (parsePermissions raw.permissions).isOk && (parseIcon raw.icon).isOk &&
       (parseTags raw.tags).isOk) = true := by
  simp only [violatedFields, List.append_eq_nil, if_nil_iff, Bool.and_eq_true]

/-- C4 (amended): the non-throwing validation variant is a total function
returning a discriminated result; validation fails exactly when some schema
field is violated; on failure the error list contains at least one entry per
violated field, each entry carrying a path that names the field it belongs to
(a field violating several checks contributes one entry per violated check);
and for every required field absent from the input the error set contains an
entry whose path names that field with the Required message. -/
theorem C4_errors_name_every_violated_field (raw : RawManifest) :
    ((safeParse raw).isOk = false ↔ violatedFields raw ≠ []) ∧
    (∀ f ∈ violatedFields raw,
      ∃ i ∈ tryValidateErrors raw, i.path.head? = some (PathSeg.key f)) ∧
    (∀ i ∈ tryValidateErrors raw,
      ∃ f ∈ violatedFields raw, i.path.head? = some (PathSeg.key f)) ∧
    (∀ f ∈ missingRequired raw,
      ∃ i ∈ tryValidateErrors raw, i.path = [PathSeg.key f] ∧ i.message = "Required") := by
  refine ⟨?_, ?_, ?_, ?_⟩
  · rw [safeParse_isOk_fields, ← Bool.not_eq_true]
    exact (not_congr (violatedFields_nil raw)).symm
  · intro f hf
    simp only [violatedFields, List.mem_append] at hf
    rcases hf with ((((((((hf | hf) | hf) | hf) | hf) | hf) | hf) | hf) | hf) | hf
    · cases hc : (parseId raw.id).isOk with
      | true => simp [hc] at hf
      | false =>
        simp [hc] at hf
        subst hf
        obtain ⟨i, hi, hh⟩ :=
          exists_entry_of_errs (parseId_errs_ne raw.id hc) (parseId_path raw.id)
        refine ⟨i, ?_, hh⟩
        rw [tryValidateErrors_fields]
        simp only [List.mem_append]
        tauto
    · cases hc : (parseMinStr "name" raw.name).isOk with
      | true => simp [hc] at hf
      | false =>
        simp [hc] at hf
        subst hf
        obtain ⟨i, hi, hh⟩ := exists_entry_of_errs
          (parseMinStr_errs_ne "name" raw.name hc) (parseMinStr_path "name" raw.name)
        refine ⟨i, ?_, hh⟩
        rw [tryValidateErrors_fields]
        simp only [List.mem_append]
        tauto
    · cases hc : (parseVersion raw.version).isOk with
      | true => simp [hc] at hf
      | false =>
        simp [hc] at hf
        subst hf
        obtain ⟨i, hi, hh⟩ := exists_entry_of_errs
          (parseVersion_errs_ne raw.version hc) (parseVersion_path raw.version)
        refine ⟨i, ?_, hh⟩
        rw [tryValidateErrors_fields]
        simp only [List.mem_append]
        tauto
    · cases hc : (parseMinStr "author" raw.author).isOk with
      | true => simp [hc] at hf
      | false =>
        simp [hc] at hf
        subst hf
        obtain ⟨i, hi, hh⟩ := exists_entry_of_errs
          (parseMinStr_errs_ne "author" raw.author hc) (parseMinStr_path "author" raw.author)
        refine ⟨i, ?_, hh⟩
        rw [tryValidateErrors_fields]
        simp only [List.mem_append]
        tauto
    · cases hc : (parseMinStr "description" raw.description).isOk with
      | true => simp [hc] at hf
      | false =>
        simp [hc] at hf
        subst hf
        obtain ⟨i, hi, hh⟩ := exists_entry_of_errs
          (parseMinStr_errs_ne "description" raw.description hc)
          (parseMinStr_path "description" raw.description)
        refine ⟨i, ?_, hh⟩
        rw [tryValidateErrors_fields]
        simp only [List.mem_append]
        tauto
    · cases hc : (parseHomepage raw.homepage).isOk with
      | true => simp [hc] at hf
      | false =>
        simp [hc] at hf
        subst hf
        obtain ⟨i, hi, hh⟩ := exists_entry_of_errs
          (parseHomepage_errs_ne raw.homepage hc) (parseHomepage_path raw.homepage)
        refine ⟨i, ?_, hh⟩
        rw [tryValidateErrors_fields]
        simp only [List.mem_append]
        tauto
    · cases hc : (parseCompat raw.compatibleVersions).isOk with
      | true => simp [hc] at hf
      | false =>
        simp [hc] at hf
        subst hf
        obtain ⟨i, hi, hh⟩ := exists_entry_of_errs
          (parseCompat_errs_ne raw.compatibleVersions hc)
          (parseCompat_path raw.compatibleVersions)
        refine ⟨i, ?_, hh⟩
        rw [tryValidateErrors_fields]
        simp only [List.mem_append]
        tauto
    · cases hc : (parsePermissions raw.permissions).isOk with
      | true => simp [hc] at hf
      | false =>
        simp [hc] at hf
        subst hf
        obtain ⟨i, hi, hh⟩ := exists_entry_of_errs
          (parsePermissions_errs_ne raw.permissions hc)
          (parsePermissions_path raw.permissions)
        refine ⟨i, ?_, hh⟩
        rw [tryValidateErrors_fields]
        simp only [List.mem_append]
        tauto
    · cases hc : (parseIcon raw.icon).isOk with
      | true => simp [hc] at hf
      | false =>
        simp [hc] at hf
        subst hf
        obtain ⟨i, hi, hh⟩ := exists_entry_of_errs
          (parseIcon_errs_ne raw.icon hc) (parseIcon_path raw.icon)
        refine ⟨i, ?_, hh⟩
        rw [tryValidateErrors_fields]
        simp only [List.mem_append]
        tauto
    · cases hc : (parseTags raw.tags).isOk with
      | true => simp [hc] at hf
      | false =>
        simp [hc] at hf
        subst hf
        obtain ⟨i, hi, hh⟩ := exists_entry_of_errs
          (parseTags_errs_ne raw.tags hc) (parseTags_path raw.tags)
        refine ⟨i, ?_, hh⟩
        rw [tryValidateErrors_fields]
        simp only [List.mem_append]
        tauto
  · intro i hi
    rw [tryValidateErrors_fields] at hi
    simp only [List.mem_append] at hi
    rcases hi with ((((((((hi | hi) | hi) | hi) | hi) | hi) | hi) | hi) | hi) | hi
    · exact ⟨"id", by simp [violatedFields, errsOf_mem_not_ok hi],
        parseId_path raw.id i hi⟩
    · exact ⟨"name", by simp [violatedFields, errsOf_mem_not_ok hi],
        parseMinStr_path "name" raw.name i hi⟩
    · exact ⟨"version", by simp [violatedFields, errsOf_mem_not_ok hi],
        parseVersion_path raw.version i hi⟩
    · exact ⟨"author", by simp [violatedFields, errsOf_mem_not_ok hi],
        parseMinStr_path "author" raw.author i hi⟩
    · exact ⟨"description", by simp [violatedFields, errsOf_mem_not_ok hi],
        parseMinStr_path "description" raw.description i hi⟩
    · exact ⟨"homepage", by simp [violatedFields, errsOf_mem_not_ok hi],
        parseHomepage_path raw.homepage i hi⟩
    · exact ⟨"compatibleVersions", by simp [violatedFields, errsOf_mem_not_ok hi],
        parseCompat_path raw.compatibleVersions i hi⟩
    · exact ⟨"permissions", by simp [violatedFields, errsOf_mem_not_ok hi],
        parsePermissions_path raw.permissions i hi⟩
    · exact ⟨"icon", by simp [violatedFields, errsOf_mem_not_ok hi],
        parseIcon_path raw.icon i hi⟩
    · exact ⟨"tags", by simp [violatedFields, errsOf_mem_not_ok hi],
        parseTags_path raw.tags i hi⟩
  · intro f h
    simp only [missingRequired, List.mem_append] at h
    rcases h with ((((h | h) | h) | h) | h) | h
    · cases hn : raw.id with
      | none =>
        simp [hn] at h
        subst h
        exact ⟨requiredIssue "id", missing_id_reported hn, rfl, rfl⟩
      | some v => simp [hn] at h
    · cases hn : raw.name with
      | none =>
        simp [hn] at h
        subst h
        exact ⟨requiredIssue "name", missing_name_reported hn, rfl, rfl⟩
      | some v => simp [hn] at h
    · cases hn : raw.version with
      | none =>
        simp [hn] at h
        subst h
        exact ⟨requiredIssue "version", missing_version_reported hn, rfl, rfl⟩
      | some v => simp [hn] at h
    · cases hn : raw.author with
      | none =>
        simp [hn] at h
        subst h
        exact ⟨requiredIssue "author", missing_author_reported hn, rfl, rfl⟩
      | some v => simp [hn] at h
    · cases hn : raw.description with
      | none =>
        simp [hn] at h
        subst h
        exact ⟨requiredIssue "description", missing_description_reported hn, rfl, rfl⟩
      | some v => simp [hn] at h
    · cases hn : raw.compatibleVersions with
      | none =>
        simp [hn] at h
        subst h
        exact ⟨requiredIssue "compatibleVersions", missing_compat_reported hn, rfl, rfl⟩
      | some v => simp [hn] at h

/-- Witness for C4: the empty-id input has id as a violated field and an
error entry whose path names id; the input with the id key absent gets an
entry with path id and the Required message. -/
theorem C4_errors_name_every_violated_field_witness :
    (∃ i ∈ tryValidateErrors rawEmptyId, i.path.head? = some (PathSeg.key "id")) ∧
    (∃ i ∈ tryValidateErrors rawMissingId,
      i.path = [PathSeg.key "id"] ∧ i.message = "Required") :=
  ⟨(C4_errors_name_every_violated_field rawEmptyId).2.1 "id" (by decide),
   (C4_errors_name_every_violated_field rawMissingId).2.2.2 "id" (by decide)⟩

/-- Counterexample to C4 as stated: an input whose only violated field is id
(empty string) produces an error list with two entries for that one field —
one per violated check (min length and regex) — so the list does not contain
exactly one entry per violated field; both entries do carry the path id. -/
theorem C4_counterexample_two_entries_one_field :
    tryValidateErrors rawEmptyId = [minLenIssue "id", invalidIssue "id"] ∧
    listedRuleViolated rawEmptyId = idRuleBroken rawEmptyId.id ∧
    (minLenIssue "id").path = [PathSeg.key "id"] ∧
    (invalidIssue "id").path = [PathSeg.key "id"] := by
  decide

/-- C5: every plugin produced by createPlugin holds a schema-validated
manifest: on success the stored manifest is exactly the parse result of the
raw argument, and when validation fails createPlugin fails with the same
issues and produces no plugin. -/
theorem C5_createPlugin_validates (L : Type) (raw : RawManifest) (lc : L) :
    (∀ p : Plugin L, createPlugin raw lc = .ok p → safeParse raw = .ok p.manifest) ∧
    (∀ es, safeParse raw = .error es → createPlugin raw lc = .error es) := by
  cases h : safeParse raw with
  | ok m =>
    refine ⟨fun p hp => ?_, fun es hes => ?_⟩
    · simp only [createPlugin, h, Except.map] at hp
      injection hp with hp2
      rw [← hp2]
    · cases hes
  | error es0 =>
    refine ⟨fun p hp => ?_, fun es hes => ?_⟩
    · simp [createPlugin, h, Except.map] at hp
    · cases hes
      simp [createPlugin, h, Except.map]

/-- Witness for C5 at the concrete valid raw manifest. -/
theorem C5_createPlugin_validates_witness :
    safeParse rawValid = .ok (Plugin.mk manifestValid ()).manifest :=
  (C5_createPlugin_validates Unit rawValid ()).1 ⟨manifestValid, ()⟩ (by decide)

/-- C6: validation is idempotent on valid manifests: a manifest obtained from
a successful parse, serialized back to a raw record, parses again to exactly
the same manifest (defaults are already filled). -/
theorem C6_validate_serialize_roundtrip (raw : RawManifest) (m : PluginManifest)
    (h : safeParse raw = .ok m) :
    safeParse (serialize m) = .ok m :=
  parse_serialize_of_ok (manifestOk_of_parse h)

/-- Witness for C6 at the concrete valid manifest. -/
theorem C6_validate_serialize_roundtrip_witness :
    safeParse (serialize manifestValid) = .ok manifestValid :=
  C6_validate_serialize_roundtrip rawValid manifestValid (by decide)

/-- C3: for every operation class of the capability table, a gated boundary
call by a plugin lacking the required capability fails with PermissionDenied
naming the plugin id and the missing capability, the underlying state is
returned unchanged, and the real work is never applied. -/
theorem C3_gate_denies_and_preserves_state (L σ ρ : Type) (p : Plugin L)
    (op : OperationClass) (doWork : σ → σ × ρ) (s : σ)
    (h : hasPermission p (requiredCapability op) = false) :
    gatedCall p op doWork s = (s, .error ⟨p.manifest.id, requiredCapability op⟩) := by
  simp [gatedCall, h]

/-- Witness for C3: a plugin declaring only transactions:read attempting a
transaction write is denied, the store is untouched, and the failure names
the plugin id and transactions:write. -/
theorem C3_gate_denies_and_preserves_state_witness :
    hasPermission pluginRO (requiredCapability .writeTransactions) = false ∧
    gatedCall pluginRO .writeTransactions
        (fun st => ("tx" :: st, ())) ([] : List String) =
      ([], .error ⟨"test-plugin", "transactions:write"⟩) :=
  ⟨by decide,
   C3_gate_denies_and_preserves_state Unit (List String) Unit pluginRO
     .writeTransactions (fun st => ("tx" :: st, ())) [] (by decide)⟩

/-- C7: emitting with tag T invokes exactly the handlers registered for T at
emit time, once per registration, in registration order; handlers for other
tags are never invoked; a failing handler does not prevent delivery to the
remaining handlers of the same emission; and a registration appended by `on`
is invoked after the previously registered handlers of its tag. -/
theorem C7_emit_invokes_tag_handlers_in_order (H : Type) [DecidableEq H]
    (bus : EventBus H) (tag : String) (fails : H → Bool) :
    ((bus.emit tag fails).map Prod.fst = subsFor tag bus.handlers) ∧
    (∀ h : H, ((bus.emit tag fails).map Prod.fst).count h =
      bus.handlers.count (tag, h)) ∧
    (∀ h : H, h ∈ (bus.emit tag fails).map Prod.fst → (tag, h) ∈ bus.handlers) ∧
    (∀ (t : String) (h : H),
      subsFor tag ((bus.on t h).handlers) =
        subsFor tag bus.handlers ++ (if t = tag then [h] else [])) := by
  unfold EventBus.emit
  refine ⟨dispatchRun_fst fails (subsFor tag bus.handlers), fun h => ?_, fun h hm => ?_, fun t h => ?_⟩
  · rw [dispatchRun_fst fails (subsFor tag bus.handlers), subsFor_count]
  · rw [dispatchRun_fst fails (subsFor tag bus.handlers)] at hm
    exact (subsFor_mem tag bus.handlers h).mp hm
  · show subsFor tag (bus.handlers ++ [(t, h)]) = _
    rw [subsFor_append]
    by_cases ht : t = tag <;> simp [subsFor, ht]

/-- Witness for C7: spec scenario 4 — two handlers subscribed to
sync.completed and one to sync.failed: emitting sync.completed invokes
exactly the two matching handlers in registration order, even though the
first one fails, and never the sync.failed handler. -/
theorem C7_emit_invokes_tag_handlers_in_order_witness :
    ((EventBus.mk [("sync.completed", 0), ("sync.failed", 1), ("sync.completed", 2)]).emit
        "sync.completed" (fun h => h == 0)).map Prod.fst = [0, 2] := by
  rw [(C7_emit_invokes_tag_handlers_in_order Nat
    (EventBus.mk [("sync.completed", 0), ("sync.failed", 1), ("sync.completed", 2)])
    "sync.completed" (fun h => h == 0)).1]
  decide

/-- C8: permission decisions are invariant under reordering and under adding
or collapsing duplicates: if a second permission list has exactly the same
members as the manifest's, every membership decision agrees. -/
theorem C8_hasPermission_invariant_under_dup_reorder (L : Type) (lc : L)
    (m : PluginManifest) (perms2 : List String) (c : String)
    (h : ∀ x : String, x ∈ m.permissions ↔ x ∈ perms2) :
    hasPermission ⟨m, lc⟩ c = hasPermission ⟨{ m with permissions := perms2 }, lc⟩ c := by
  simp only [hasPermission]
  rw [Bool.eq_iff_iff]
  simp only [List.contains, List.elem_iff]
  exact h c

/-- Witness for C8: duplicating and reordering the concrete permission list
leaves the decision unchanged. -/
theorem C8_hasPermission_invariant_under_dup_reorder_witness :
    hasPermission (Plugin.mk manifestValid ()) "transactions:read" =
      hasPermission (Plugin.mk
        { manifestValid with
          permissions := ["transactions:read", "transactions:read"] } ())
        "transactions:read" :=
  C8_hasPermission_invariant_under_dup_reorder Unit () manifestValid
    ["transactions:read", "transactions:read"] "transactions:read"
    (by intro x; simp [manifestValid])

/-- C9: a raw input that validates successfully while omitting the
permissions key yields a manifest whose permissions are the empty sequence
(the schema default). -/
theorem C9_permissions_default_empty (raw : RawManifest) (m : PluginManifest)
    (h1 : raw.permissions = none) (h2 : safeParse raw = .ok m) :
    m.permissions = [] := by
  obtain ⟨-, -, -, -, -, -, -, hPerm, -, -⟩ := safeParse_ok_inv h2
  rw [h1] at hPerm
  simpa [parsePermissions] using hPerm.symm

/-- Witness for C9 at a concrete raw input without the permissions key. -/
theorem C9_permissions_default_empty_witness :
    rawNoPerms.permissions = none ∧ safeParse rawNoPerms = .ok manifestNoPerms ∧
    manifestNoPerms.permissions = [] :=
  ⟨rfl, by decide,
   C9_permissions_default_empty rawNoPerms manifestNoPerms rfl (by decide)⟩

/-- C10: the manifest produced by createPlugin contains only the fields
declared by the schema: the validator never reads the unknown keys of the raw
input, so any extra fields are absent from the result and do not influence
validation — creating a plugin from a raw input with any unknown keys is the
same as creating it from the input with the unknown keys stripped. -/
theorem C10_unknown_fields_stripped (L : Type) (raw : RawManifest) (lc : L)
    (extra2 : List (String × RawVal)) :
    createPlugin { raw with extra := extra2 } lc = createPlugin (stripUnknown raw) lc :=
  rfl
